import Mathlib

/-!
# Verification of the universal video downloader script

A shallow embedding of the script `download_youtube.py` (a yt-dlp wrapper)
together with proofs about its pure logic: platform detection from the URL
host, filename sanitization, construction of the yt-dlp options mapping
(output template, format selector, post-processors), the ordering of the
observable effects of one run, and the top-level exception handling.

Python strings are modelled as Lean strings / lists of characters; the
pathlib `PurePosixPath` parse/render behaviour is modelled explicitly;
`re.sub` with a single-character class, `str.strip`, `str.rstrip` and the
Python truthiness of optional string arguments are modelled character by
character.  The yt-dlp options dict is modelled as a structure holding
exactly the keys the script ever writes.
-/

/-- Model of Python `str.isspace` on a single character (the whitespace
set stripped by `str.strip()`). -/
def python_isspace (c : Char) : Bool :=
  c = ' ' || c = '\t' || c = '\n' || c = '\r' || c = '\x0b' || c = '\x0c' ||
  c = '\x1c' || c = '\x1d' || c = '\x1e' || c = '\x1f' || c = '\x85' ||
  c = '\xa0' || c = ' ' || (' ' ≤ c && c ≤ ' ') ||
  c = ' ' || c = ' ' || c = ' ' || c = ' ' || c = '　'

/-- Model of Python `str.strip()` (no argument): drop leading and trailing
whitespace characters, at the level of character lists. -/
def python_stripL (l : List Char) : List Char :=
  ((l.dropWhile python_isspace).reverse.dropWhile python_isspace).reverse

/-- Model of Python `str.strip()` on strings. -/
def python_stripS (s : String) : String :=
  (python_stripL s.toList).asString

/-- Model of Python `str.rstrip(chars)`: drop from the right every trailing
character belonging to `chars`. -/
def python_rstrip (chars : List Char) (s : String) : String :=
  ((s.toList.reverse.dropWhile (fun c => chars.contains c)).reverse).asString

/-- The character class of the regular expression in `safe_title`,
source line 43: the characters removed from filenames. -/
def illegalChar (c : Char) : Bool :=
  c = '<' || c = '>' || c = ':' || c = '"' || c = '/' || c = '\\' ||
  c = '|' || c = '?' || c = '*'

/-- Model of `re.sub` for a pattern that is a single-character class:
every character matching the class is replaced by the replacement string,
all other characters are kept. -/
def re_sub_class1 (p : Char → Bool) (repl : List Char) : List Char → List Char
  | [] => []
  | c :: cs => (if p c then repl else [c]) ++ re_sub_class1 p repl cs

/-- Source lines 41-43: strip illegal filesystem characters from a title.
The Python body is `re.sub(r..., "_", title).strip()`. -/
def safe_title (title : String) : String :=
  (python_stripL (re_sub_class1 illegalChar ['_'] title.toList)).asString

/-- Prefix test on character lists: the first list is a prefix of the
second.  Used to model Python substring membership and `startswith`. -/
def startsWithL : List Char → List Char → Bool
  | [], _ => true
  | _ :: _, [] => false
  | n :: ns, h :: hs => (n = h) && startsWithL ns hs

/-- Infix test on character lists: the first list occurs contiguously
inside the second. -/
def containsL (needle : List Char) : List Char → Bool
  | [] => startsWithL needle []
  | c :: t => startsWithL needle (c :: t) || containsL needle t

/-- Model of the Python substring operator `needle in hay`. -/
def py_contains (hay needle : String) : Bool :=
  containsL needle.toList hay.toList

/-- Model of Python `str.lower()` (ASCII case folding, which covers every
host name the script compares against). -/
def py_lower (s : String) : String :=
  (s.toList.map Char.toLower).asString

/-- The characters Python `urllib.parse` accepts inside a URL scheme. -/
def scheme_char (c : Char) : Bool :=
  c.isAlphanum || c = '+' || c = '-' || c = '.'

/-- Model of the scheme-splitting step of `urllib.parse.urlparse`: if the
URL starts with `letter scheme_chars* :`, return the part after the colon,
otherwise the whole input. -/
def after_scheme (l : List Char) : List Char :=
  match l.findIdx? (fun c => c = ':') with
  | none => l
  | some i =>
      if 0 < i ∧ (l.headD ' ').isAlpha ∧ (l.take i).all scheme_char then
        l.drop (i + 1)
      else l

/-- Model of `urlparse(url).netloc` at the character-list level: after the
optional scheme, a netloc is present only behind `//` and extends to the
first `/`, `?` or `#`. -/
def urlparse_netlocL (l : List Char) : List Char :=
  match after_scheme l with
  | '/' :: '/' :: rest => rest.takeWhile (fun c => c ≠ '/' && c ≠ '?' && c ≠ '#')
  | _ => []

/-- Model of `urlparse(url).netloc`. -/
def urlparse_netloc (url : String) : String :=
  (urlparse_netlocL url.toList).asString

/-- Source lines 32-39: classify the URL host as youtube, instagram or
other; the YouTube substrings are tested first. -/
def detect_platform (url : String) : String :=
  let netloc := py_lower (urlparse_netloc url)
  if ["youtube.com", "youtu.be", "youtube-nocookie.com"].any
      (fun p => py_contains netloc p) then "youtube"
  else if ["instagram.com", "instagr.am"].any
      (fun p => py_contains netloc p) then "instagram"
  else "other"

/-- Split a character list on a separator character, keeping empty chunks,
as `PurePosixPath` parsing splits on the slash. -/
def splitOnChar (sep : Char) : List Char → List (List Char)
  | [] => [[]]
  | c :: cs =>
      match splitOnChar sep cs with
      | [] => [[]]
      | h :: t => if c = sep then [] :: h :: t else (c :: h) :: t

/-- Join chunks with a separator character, inverse of `splitOnChar` on
separator-free nonempty chunk lists. -/
def joinWithChar (sep : Char) : List (List Char) → List Char
  | [] => []
  | [x] => x
  | x :: y :: t => x ++ sep :: joinWithChar sep (y :: t)

/-- The component list of `PurePosixPath(p)`: slash-separated chunks with
empty chunks and `.` chunks discarded. -/
def pathPartsL (l : List Char) : List (List Char) :=
  (splitOnChar '/' l).filter (fun s => decide (s ≠ [] ∧ s ≠ ['.']))

/-- The root of `PurePosixPath(p)`: `//` is kept as a root of its own
(POSIX), three or more leading slashes collapse to one, and otherwise one
leading slash is the root. -/
def pathRootL (l : List Char) : List Char :=
  if l.take 3 = ['/', '/', '/'] then ['/']
  else if l.take 2 = ['/', '/'] then ['/', '/']
  else if l.take 1 = ['/'] then ['/']
  else []

/-- Render a root and component list back to the string `str(path)`
produced by `PurePosixPath`; the empty relative path renders as `.`. -/
def pathRenderL (root : List Char) (parts : List (List Char)) : List Char :=
  if root = [] ∧ parts = [] then ['.'] else root ++ joinWithChar '/' parts

/-- `str(PurePosixPath(p))`. -/
def pathStr (p : String) : String :=
  (pathRenderL (pathRootL p.toList) (pathPartsL p.toList)).asString

/-- `str(PurePosixPath(a) / b)`: if `b` is relative its components are
appended to those of `a`, otherwise `b` replaces `a`. -/
def pathJoin (a b : String) : String :=
  (if pathRootL b.toList = [] then
    pathRenderL (pathRootL a.toList) (pathPartsL a.toList ++ pathPartsL b.toList)
  else
    pathRenderL (pathRootL b.toList) (pathPartsL b.toList)).asString

/-- Model of `Path.expanduser()`, with the home directory passed
explicitly.  A lone `~` or a leading `~/` expands to the home directory;
the `~user` form, which consults the user database, is not modelled and is
left unchanged. -/
def expanduser (home : String) (p : String) : String :=
  if p.toList = ['~'] then home
  else if startsWithL ['~', '/'] p.toList then home ++ (p.toList.drop 1).asString
  else p

/-- Model of Python `custom_name or default` for an optional string:
`None` and the empty string are falsy. -/
def python_or_str (a : Option String) (b : String) : String :=
  match a with
  | none => b
  | some s => if s = "" then b else s

/-- One entry of the `postprocessors` list of the yt-dlp options dict,
with the keys the script writes (source lines 70-74). -/
structure Postprocessor where
  key : String
  preferredcodec : String
  preferredquality : String

/-- The yt-dlp options dict built by `download`, with exactly the keys the
script ever writes (source lines 59-86).  Keys the script may leave absent
are modelled as `Option` fields that start out `none`. -/
structure YdlOpts where
  outtmpl : String
  ignoreerrors : Bool
  quiet : Bool
  no_warnings : Bool
  format : Option String
  postprocessors : Option (List Postprocessor)

/-- The observable actions of one run of `download`, in program order:
`Path.mkdir(parents=True, exist_ok=True)` (create the directory, and its
parents, when absent), `print`, and the delegate call
`yt_dlp.YoutubeDL(opts).download([url])`. -/
inductive Effect
  | mkdirParentsExistOk (path : String)
  | print (line : String)
  | delegateDownload (opts : YdlOpts) (urls : List String)

/-- The result of the pure part of one `download` run: the resolved output
directory, the constructed options dict, and the ordered effect list. -/
structure DownloadRun where
  out_path : String
  ydl_opts : YdlOpts
  effects : List Effect

/-- Source lines 54-56: the output template.  `(custom_name or
"%(title)s").strip()` is sanitized and joined, as a path component, under
the expanded output directory with the `.%(ext)s` suffix. -/
def build_outtmpl (home out_dir : String) (custom_name : Option String) : String :=
  let edL := (expanduser home out_dir).toList
  let template1 := safe_title (python_stripS (python_or_str custom_name "%(title)s"))
  let nameL := (template1 ++ ".%(ext)s").toList
  (if pathRootL nameL = [] then
    pathRenderL (pathRootL edL) (pathPartsL edL ++ pathPartsL nameL)
  else
    pathRenderL (pathRootL nameL) (pathPartsL nameL)).asString

/-- Source lines 66-86: starting from the base options, install the format
selector and, for audio-only runs, the FFmpeg audio-extraction
post-processor. -/
def build_format_opts (audio_only : Bool) (quality : String) (base : YdlOpts) : YdlOpts :=
  if audio_only then
    { base with
      format := some "bestaudio/best",
      postprocessors := some [{ key := "FFmpegExtractAudio",
                                preferredcodec := "mp3",
                                preferredquality := "192" }] }
  else if quality = "best" then
    { base with format := some "bestvideo[ext=mp4]+bestaudio[ext=m4a]/best[ext=mp4]/best" }
  else if quality = "worst" then
    { base with format := some "worst" }
  else
    let height := python_rstrip ['p'] quality
    { base with format := some ("bestvideo[height<=" ++ height ++
        "][ext=mp4]+bestaudio[ext=m4a]/best[height<=" ++ height ++ "]/best") }

/-- Source lines 48-92: the core download routine.  The home directory of
`expanduser` is passed explicitly; the effects record the directory
creation, the two status prints, the delegate call and the final print, in
program order. -/
def download (home url : String) (audio_only : Bool) (quality : String)
    (out_dir : String) (custom_name : Option String) : DownloadRun :=
  let edL := (expanduser home out_dir).toList
  let out_path := (pathRenderL (pathRootL edL) (pathPartsL edL)).asString
  let template := build_outtmpl home out_dir custom_name
  let base : YdlOpts :=
    { outtmpl := template, ignoreerrors := false, quiet := false,
      no_warnings := true, format := none, postprocessors := none }
  let ydl_opts := build_format_opts audio_only quality base
  { out_path := out_path
    ydl_opts := ydl_opts
    effects := [Effect.mkdirParentsExistOk out_path,
                Effect.print ("→ platform: " ++ detect_platform url),
                Effect.print ("→ saving to: " ++ out_path ++ "\n"),
                Effect.delegateDownload ydl_opts [url],
                Effect.print "✅ finished\n"] }

/-- The exceptions relevant to the top-level handler of `main`:
`KeyboardInterrupt` and every other exception raised by the delegate
call. -/
inductive PyExc
  | keyboardInterrupt
  | otherError (msg : String)

/-- How one process run ends: normal completion (exit status 0),
`sys.exit(message)` (message on stderr, exit status 1), or an uncaught
exception (traceback, exit status 1). -/
inductive RunOutcome
  | finished
  | exitWithMessage (msg : String)
  | uncaught (e : PyExc)

/-- Source lines 117-121: the `try`/`except KeyboardInterrupt` block of
`main`, as a function of the outcome of the `download` call. -/
def main_except_handler : Except PyExc Unit → RunOutcome
  | Except.ok _ => RunOutcome.finished
  | Except.error PyExc.keyboardInterrupt =>
      RunOutcome.exitWithMessage "\n⏹️  aborted by user"
  | Except.error e => RunOutcome.uncaught e

/-- The process exit status of each run outcome: `sys.exit(str)` and an
uncaught exception both exit with status 1. -/
def exit_code : RunOutcome → Nat
  | RunOutcome.finished => 0
  | RunOutcome.exitWithMessage _ => 1
  | RunOutcome.uncaught _ => 1

/-- Claim C2: for every quality token, when the audio-only flag is true
the constructed options select the best available audio stream falling
back to the best overall stream (format selector `bestaudio/best`) and
request one FFmpeg audio-extraction post-processor with the fixed codec
mp3 at the fixed bitrate 192, independent of the quality argument. -/
theorem c2_audio_only_options (home url quality out_dir : String)
    (custom_name : Option String) :
    (download home url true quality out_dir custom_name).ydl_opts.format =
      some "bestaudio/best" ∧
    (download home url true quality out_dir custom_name).ydl_opts.postprocessors =
      some [{ key := "FFmpegExtractAudio", preferredcodec := "mp3",
              preferredquality := "192" }] :=
  ⟨rfl, rfl⟩

/-- Claim C3: with audio-only false and quality token 720p, the trailing
`p` is stripped to give the height ceiling 720, and the format selector is
exactly the three tiers, in order: best mp4 video of height at most 720
paired with best m4a audio, then best overall stream of height at most
720, then best overall stream. -/
theorem c3_quality_720p_format (home url out_dir : String)
    (custom_name : Option String) :
    python_rstrip ['p'] "720p" = "720" ∧
    (download home url false "720p" out_dir custom_name).ydl_opts.format =
      some "bestvideo[height<=720][ext=mp4]+bestaudio[ext=m4a]/best[height<=720]/best" ∧
    splitOnChar '/'
        "bestvideo[height<=720][ext=mp4]+bestaudio[ext=m4a]/best[height<=720]/best".toList =
      ["bestvideo[height<=720][ext=mp4]+bestaudio[ext=m4a]".toList,
       "best[height<=720]".toList, "best".toList] :=
  ⟨rfl, rfl, by decide⟩

/-- Claim C8: the options mapping handed to the delegate library is a
function of the audio-only flag, quality token, output directory and
custom name alone; two runs that differ only in the URL construct
identical options, so the platform classification of the URL cannot
influence format selection, post-processing or the output template. -/
theorem c8_url_noninterference (home url1 url2 : String) (audio_only : Bool)
    (quality out_dir : String) (custom_name : Option String) :
    (download home url1 audio_only quality out_dir custom_name).ydl_opts =
      (download home url2 audio_only quality out_dir custom_name).ydl_opts :=
  rfl

/-- Claim C9: a user interrupt raised during the download is caught by the
top-level handler, which terminates via `sys.exit` with the clean abort
message and a non-zero exit status; every other exception from the
delegate call is not caught and propagates, terminating the process with a
non-zero status. -/
theorem c9_exception_handling :
    (main_except_handler (Except.error PyExc.keyboardInterrupt) =
        RunOutcome.exitWithMessage "\n⏹️  aborted by user" ∧
      exit_code (main_except_handler (Except.error PyExc.keyboardInterrupt)) ≠ 0) ∧
    ∀ msg : String,
      main_except_handler (Except.error (PyExc.otherError msg)) =
          RunOutcome.uncaught (PyExc.otherError msg) ∧
        exit_code (main_except_handler (Except.error (PyExc.otherError msg))) ≠ 0 :=
  ⟨⟨rfl, Nat.one_ne_zero⟩, fun _ => ⟨rfl, Nat.one_ne_zero⟩⟩

/-- Claim C10: a custom name that is provided but empty behaves exactly as
if no custom name were given: the whole run, and in particular the output
template, falls back to the title placeholder. -/
theorem c10_empty_custom_name (home url : String) (audio_only : Bool)
    (quality out_dir : String) :
    download home url audio_only quality out_dir (some "") =
      download home url audio_only quality out_dir none :=
  rfl

/-- Claim C4: with the default arguments (audio-only false, quality best,
output directory `downloads`, no custom name) the run first issues the
create-if-absent directory creation for `downloads`, and the delegate call
that follows it receives the three-tier best format selector: mp4 video
paired with m4a audio, then best mp4, then best overall. -/
theorem c4_defaults_run (home url : String) :
    (download home url false "best" "downloads" none).out_path = "downloads" ∧
    (download home url false "best" "downloads" none).effects =
      [Effect.mkdirParentsExistOk "downloads",
       Effect.print ("→ platform: " ++ detect_platform url),
       Effect.print "→ saving to: downloads\n",
       Effect.delegateDownload
         (download home url false "best" "downloads" none).ydl_opts [url],
       Effect.print "✅ finished\n"] ∧
    (download home url false "best" "downloads" none).effects[0]? =
      some (Effect.mkdirParentsExistOk "downloads") ∧
    (download home url false "best" "downloads" none).effects[3]? =
      some (Effect.delegateDownload
        (download home url false "best" "downloads" none).ydl_opts [url]) ∧
    (download home url false "best" "downloads" none).ydl_opts.format =
      some "bestvideo[ext=mp4]+bestaudio[ext=m4a]/best[ext=mp4]/best" :=
  ⟨rfl, rfl, rfl, rfl, rfl⟩

/-- Formulation of claim C1 as worded: the sanitizer is said to REMOVE
every character of the illegal set, leave every other character and the
spacing between words unchanged, and trim leading and trailing
whitespace. -/
def spec_sanitize_remove (title : String) : String :=
  (python_stripL (title.toList.filter (fun c => !(illegalChar c)))).asString

/-- Formulation of claim C1 as amended: the sanitizer REPLACES every
character of the illegal set with an underscore, leaves every other
character (and hence the spacing between words) unchanged, and trims
leading and trailing whitespace. -/
def spec_sanitize_replace (title : String) : String :=
  (python_stripL (title.toList.map
    (fun c => if illegalChar c then '_' else c))).asString

/-- `re.sub` with a single-character class and a one-character replacement
is the character-wise substitution map. -/
theorem re_sub_class1_singleton (p : Char → Bool) (r : Char) :
    ∀ l : List Char,
      re_sub_class1 p [r] l = l.map (fun c => if p c then r else c)
  | [] => rfl
  | c :: cs => by
      by_cases h : p c <;>
        simp [re_sub_class1, re_sub_class1_singleton p r cs, h]

/-- Claim C1 counterexample: on the title `a<b` the sanitizer of the code
yields `a_b` (the illegal character is replaced by an underscore), while
the claimed removal semantics would yield `ab`; the two disagree. -/
theorem c1_counterexample :
    safe_title "a<b" = "a_b" ∧ spec_sanitize_remove "a<b" = "ab" ∧
      safe_title "a<b" ≠ spec_sanitize_remove "a<b" :=
  ⟨by decide, by decide, by decide⟩

/-- Claim C1 as amended: for every input title the filename sanitizer
replaces every character of the set `<>:"/\|?*` with an underscore,
leaves every other character and the spacing between words unchanged, and
trims leading and trailing whitespace from the result. -/
theorem c1_sanitizer_replaces_illegal (title : String) :
    safe_title title = spec_sanitize_replace title := by
  unfold safe_title spec_sanitize_replace
  rw [re_sub_class1_singleton]

/-- Claim C6: every URL whose lower-cased host contains `youtube.com`,
`youtu.be` or `youtube-nocookie.com` is classified as youtube. -/
theorem c6_youtube_detection (url : String)
    (h : py_contains (py_lower (urlparse_netloc url)) "youtube.com" = true ∨
         py_contains (py_lower (urlparse_netloc url)) "youtu.be" = true ∨
         py_contains (py_lower (urlparse_netloc url)) "youtube-nocookie.com" = true) :
    detect_platform url = "youtube" := by
  unfold detect_platform
  rcases h with h | h | h <;> simp [List.any_cons, List.any_nil, h]

/-- Witness for C6 at a concrete YouTube watch URL. -/
theorem c6_youtube_detection_witness :
    detect_platform "https://www.youtube.com/watch?v=dQw4w9WgXcQ" = "youtube" :=
  c6_youtube_detection "https://www.youtube.com/watch?v=dQw4w9WgXcQ"
    (Or.inl (by decide))

/-- Claim C5 counterexample: the host `instagram.com.youtube.com` contains
the substring `instagram.com`, yet detection classifies the URL as
youtube, because the YouTube substrings are tested first. -/
theorem c5_counterexample :
    py_contains (py_lower (urlparse_netloc "https://instagram.com.youtube.com/p/abc"))
        "instagram.com" = true ∧
      detect_platform "https://instagram.com.youtube.com/p/abc" = "youtube" ∧
      detect_platform "https://instagram.com.youtube.com/p/abc" ≠ "instagram" :=
  ⟨by decide, by decide, by decide⟩

/-- Claim C5 as amended: every URL whose lower-cased host contains
`instagram.com` or `instagr.am` and contains none of the YouTube host
substrings `youtube.com`, `youtu.be`, `youtube-nocookie.com` is classified
as instagram. -/
theorem c5_instagram_detection (url : String)
    (hi : py_contains (py_lower (urlparse_netloc url)) "instagram.com" = true ∨
          py_contains (py_lower (urlparse_netloc url)) "instagr.am" = true)
    (hy1 : py_contains (py_lower (urlparse_netloc url)) "youtube.com" = false)
    (hy2 : py_contains (py_lower (urlparse_netloc url)) "youtu.be" = false)
    (hy3 : py_contains (py_lower (urlparse_netloc url)) "youtube-nocookie.com" = false) :
    detect_platform url = "instagram" := by
  unfold detect_platform
  rcases hi with h | h <;>
    simp [List.any_cons, List.any_nil, h, hy1, hy2, hy3]

/-- Witness for the amended C5 at a concrete Instagram reel URL. -/
theorem c5_instagram_detection_witness :
    detect_platform "https://www.instagram.com/reel/abc" = "instagram" :=
  c5_instagram_detection "https://www.instagram.com/reel/abc"
    (Or.inl (by decide)) (by decide) (by decide) (by decide)

/-- `dropWhile` is idempotent. -/
theorem dropWhile_dropWhile (p : Char → Bool) :
    ∀ l : List Char, (l.dropWhile p).dropWhile p = l.dropWhile p
  | [] => rfl
  | c :: t => by
      cases h : p c <;>
        simp [List.dropWhile_cons, h, dropWhile_dropWhile p t]

/-- A prefix of a list that `dropWhile` leaves unchanged is itself left
unchanged. -/
theorem dropWhile_eq_self_of_prefix (p : Char → Bool) {x y : List Char}
    (hx : x.dropWhile p = x) (hyx : y <+: x) : y.dropWhile p = y := by
  cases y with
  | nil => rfl
  | cons c t =>
      obtain ⟨r, hr⟩ := hyx
      cases hpc : p c with
      | false => simp [List.dropWhile_cons, hpc]
      | true =>
          exfalso
          rw [← hr, List.cons_append, List.dropWhile_cons, hpc] at hx
          have hlen := congrArg List.length hx
          have hle := (List.dropWhile_sublist (l := t ++ r) p).length_le
          simp [List.length_append] at hlen hle
          omega

/-- Stripping an already stripped list changes nothing. -/
theorem python_stripL_idem (l : List Char) :
    python_stripL (python_stripL l) = python_stripL l := by
  have ha := dropWhile_dropWhile python_isspace l
  have hu := dropWhile_dropWhile python_isspace
    (l.dropWhile python_isspace).reverse
  have hpre : ((l.dropWhile python_isspace).reverse.dropWhile
        python_isspace).reverse <+: l.dropWhile python_isspace := by
    conv_rhs => rw [← List.reverse_reverse (l.dropWhile python_isspace)]
    exact List.reverse_prefix.mpr (List.dropWhile_suffix python_isspace)
  have hy := dropWhile_eq_self_of_prefix python_isspace ha hpre
  unfold python_stripL
  rw [hy, List.reverse_reverse, hu]

/-- `dropWhile` commutes with a map that preserves the predicate. -/
theorem dropWhile_map_comm (f : Char → Char) (p : Char → Bool)
    (hpf : ∀ c, p (f c) = p c) :
    ∀ l : List Char, (l.map f).dropWhile p = (l.dropWhile p).map f
  | [] => rfl
  | c :: t => by
      cases h : p c <;>
        simp [List.dropWhile_cons, h, hpf c, dropWhile_map_comm f p hpf t]

/-- Stripping commutes with a map that preserves whitespace-ness. -/
theorem python_stripL_map (f : Char → Char)
    (hpf : ∀ c, python_isspace (f c) = python_isspace c) (l : List Char) :
    python_stripL (l.map f) = (python_stripL l).map f := by
  unfold python_stripL
  rw [dropWhile_map_comm f python_isspace hpf, ← List.map_reverse,
    dropWhile_map_comm f python_isspace hpf, ← List.map_reverse]

/-- The underscore substitution of the sanitizer maps whitespace to itself
and never creates whitespace: no illegal filename character is
whitespace. -/
theorem python_isspace_subst (c : Char) :
    python_isspace (if illegalChar c then '_' else c) = python_isspace c := by
  by_cases h : illegalChar c = true
  · have h9 : (((((((c = '<' ∨ c = '>') ∨ c = ':') ∨ c = '"') ∨ c = '/') ∨
        c = '\\') ∨ c = '|') ∨ c = '?') ∨ c = '*' := by
      simpa [illegalChar] using h
    rcases h9 with ((((((((rfl | rfl) | rfl) | rfl) | rfl) | rfl) | rfl) |
      rfl) | rfl) <;> decide
  · simp [h]

/-- Pre-stripping the argument of `safe_title` is redundant: the sanitizer
strips its own output and the substitution preserves whitespace-ness. -/
theorem safe_title_stripS (s : String) :
    safe_title (python_stripS s) = safe_title s := by
  unfold safe_title python_stripS
  rw [re_sub_class1_singleton, re_sub_class1_singleton]
  show (python_stripL ((python_stripL s.toList).map
      (fun c => if illegalChar c then '_' else c))).asString =
    (python_stripL (s.toList.map
      (fun c => if illegalChar c then '_' else c))).asString
  rw [python_stripL_map _ python_isspace_subst, python_stripL_idem,
    python_stripL_map _ python_isspace_subst]

/-- Splitting never produces the empty chunk list. -/
theorem splitOnChar_ne_nil (sep : Char) : ∀ l : List Char, splitOnChar sep l ≠ []
  | [] => by simp [splitOnChar]
  | c :: cs => by
      cases h : splitOnChar sep cs with
      | nil => exact absurd h (splitOnChar_ne_nil sep cs)
      | cons a t => by_cases hc : c = sep <;> simp [splitOnChar, h, hc]

/-- Splitting at a leading separator emits one empty chunk. -/
theorem splitOnChar_cons_sep (sep : Char) (l : List Char) :
    splitOnChar sep (sep :: l) = [] :: splitOnChar sep l := by
  cases h : splitOnChar sep l with
  | nil => exact absurd h (splitOnChar_ne_nil sep l)
  | cons a t => simp [splitOnChar, h]

/-- No chunk of a split contains the separator. -/
theorem not_mem_of_mem_splitOnChar (sep : Char) :
    ∀ l s : List Char, s ∈ splitOnChar sep l → sep ∉ s
  | [], s, hs => by
      simp [splitOnChar] at hs
      simp [hs]
  | c :: cs, s, hs => by
      have ih := not_mem_of_mem_splitOnChar sep cs
      cases h : splitOnChar sep cs with
      | nil => exact absurd h (splitOnChar_ne_nil sep cs)
      | cons a t =>
          simp only [splitOnChar, h] at hs
          by_cases hc : c = sep
          · rw [if_pos hc] at hs
            rcases List.mem_cons.mp hs with rfl | hs'
            · simp
            · exact ih s (by rw [h]; exact hs')
          · rw [if_neg hc] at hs
            rcases List.mem_cons.mp hs with rfl | hs'
            · intro hmem
              rcases List.mem_cons.mp hmem with rfl | hmem'
              · exact hc rfl
              · exact ih a (by rw [h]; exact List.mem_cons_self a t) hmem'
            · exact ih s (by rw [h]; exact List.mem_cons_of_mem a hs')

/-- A separator-free list splits into itself as the only chunk. -/
theorem splitOnChar_of_not_mem (sep : Char) :
    ∀ l : List Char, sep ∉ l → splitOnChar sep l = [l]
  | [], _ => rfl
  | c :: cs, h => by
      have hc : c ≠ sep := by
        intro e
        exact h (by rw [← e]; exact List.mem_cons_self c cs)
      have ih := splitOnChar_of_not_mem sep cs
        (fun e => h (List.mem_cons_of_mem c e))
      simp [splitOnChar, ih, hc]

/-- Splitting a separator-free chunk glued before `sep :: rest` emits the
chunk and continues on `rest`. -/
theorem splitOnChar_append_cons (sep : Char) :
    ∀ x rest : List Char, sep ∉ x →
      splitOnChar sep (x ++ sep :: rest) = x :: splitOnChar sep rest
  | [], rest, _ => by simp [splitOnChar_cons_sep]
  | c :: x, rest, h => by
      have hc : c ≠ sep := by
        intro e
        exact h (by rw [← e]; exact List.mem_cons_self c x)
      have ih := splitOnChar_append_cons sep x rest
        (fun e => h (List.mem_cons_of_mem c e))
      cases hsp : splitOnChar sep (x ++ sep :: rest) with
      | nil => exact absurd hsp (splitOnChar_ne_nil sep (x ++ sep :: rest))
      | cons a t =>
          rw [ih] at hsp
          rcases List.cons.injEq .. ▸ hsp with ⟨rfl, rfl⟩
          simp [List.cons_append, splitOnChar, ih, hc]

/-- Unfolding of `joinWithChar` on a leading chunk. -/
theorem joinWithChar_cons (sep : Char) (q : List Char) (qs : List (List Char)) :
    joinWithChar sep (q :: qs) =
      q ++ (if qs = [] then [] else sep :: joinWithChar sep qs) := by
  cases qs <;> simp [joinWithChar]

/-- Splitting undoes joining on a nonempty list of separator-free
chunks. -/
theorem splitOnChar_joinWithChar (sep : Char) :
    ∀ parts : List (List Char), parts ≠ [] → (∀ p ∈ parts, sep ∉ p) →
      splitOnChar sep (joinWithChar sep parts) = parts
  | [], h, _ => absurd rfl h
  | [q], _, hall => by
      simp [joinWithChar,
        splitOnChar_of_not_mem sep q (hall q (List.mem_cons_self q []))]
  | q :: y :: t, _, hall => by
      have ih := splitOnChar_joinWithChar sep (y :: t) (List.cons_ne_nil y t)
        (fun p hp => hall p (List.mem_cons_of_mem q hp))
      have hq : sep ∉ q := hall q (List.mem_cons_self q (y :: t))
      show splitOnChar sep (q ++ sep :: joinWithChar sep (y :: t)) = q :: y :: t
      rw [splitOnChar_append_cons sep q _ hq, ih]

/-- Every component of a parsed path is nonempty, is not the `.` chunk,
and contains no slash. -/
theorem pathPartsL_facts (l : List Char) :
    ∀ p ∈ pathPartsL l, p ≠ [] ∧ p ≠ ['.'] ∧ '/' ∉ p := by
  intro p hp
  have h1 := List.of_mem_filter hp
  have h2 : p ∈ splitOnChar '/' l := List.mem_of_mem_filter hp
  have h3 := not_mem_of_mem_splitOnChar '/' l p h2
  simp only [decide_eq_true_eq] at h1
  exact ⟨h1.1, h1.2, h3⟩

/-- Filtering a parsed component list again changes nothing. -/
theorem pathPartsL_filter (l : List Char) :
    (pathPartsL l).filter (fun s => decide (s ≠ [] ∧ s ≠ ['.'])) =
      pathPartsL l := by
  rw [List.filter_eq_self]
  intro a ha
  unfold pathPartsL at ha
  exact (List.mem_filter.mp ha).2

/-- A path root is empty, one slash, or two slashes. -/
theorem pathRootL_cases (l : List Char) :
    pathRootL l = [] ∨ pathRootL l = ['/'] ∨ pathRootL l = ['/', '/'] := by
  unfold pathRootL
  split_ifs <;> simp

/-- A list starting with a non-slash character has the empty root. -/
theorem pathRootL_cons_ne (c : Char) (r : List Char) (hc : c ≠ '/') :
    pathRootL (c :: r) = [] := by
  simp [pathRootL, List.take_succ_cons, hc]

/-- One slash before a non-slash character is the root `/`. -/
theorem pathRootL_one_slash (c : Char) (r : List Char) (hc : c ≠ '/') :
    pathRootL ('/' :: c :: r) = ['/'] := by
  simp [pathRootL, List.take_succ_cons, hc]

/-- Two slashes before a non-slash character are the root `//`. -/
theorem pathRootL_two_slash (c : Char) (r : List Char) (hc : c ≠ '/') :
    pathRootL ('/' :: '/' :: c :: r) = ['/', '/'] := by
  simp [pathRootL, List.take_succ_cons, hc]

/-- Parsing the rendered form of a parsed path recovers the same root and
the same component list: `PurePosixPath(str(p))` equals `p`. -/
theorem path_roundtrip (l : List Char) :
    pathRootL (pathRenderL (pathRootL l) (pathPartsL l)) = pathRootL l ∧
    pathPartsL (pathRenderL (pathRootL l) (pathPartsL l)) = pathPartsL l := by
  have hfacts := pathPartsL_facts l
  cases hp : pathPartsL l with
  | nil =>
      rcases pathRootL_cases l with hr | hr | hr <;> rw [hr] <;>
        exact ⟨by decide, by decide⟩
  | cons q qs =>
      have hall : ∀ p ∈ q :: qs, '/' ∉ p := by
        intro p hp'
        exact (hfacts p (by rw [hp]; exact hp')).2.2
      have hsplit : splitOnChar '/' (joinWithChar '/' (q :: qs)) = q :: qs :=
        splitOnChar_joinWithChar '/' (q :: qs) (List.cons_ne_nil q qs) hall
      have hfilter : (q :: qs).filter (fun s => decide (s ≠ [] ∧ s ≠ ['.'])) =
          q :: qs := by
        rw [← hp]
        exact pathPartsL_filter l
      have hqfacts := hfacts q (by rw [hp]; exact List.mem_cons_self q qs)
      obtain ⟨qc, qt, rfl⟩ : ∃ qc qt, q = qc :: qt := by
        cases q with
        | nil => exact absurd rfl hqfacts.1
        | cons qc qt => exact ⟨qc, qt, rfl⟩
      have hqc : qc ≠ '/' := by
        intro e
        exact hqfacts.2.2 (by rw [← e]; exact List.mem_cons_self qc qt)
      have hjoin : joinWithChar '/' ((qc :: qt) :: qs) =
          qc :: (qt ++ (if qs = [] then [] else '/' :: joinWithChar '/' qs)) := by
        rw [joinWithChar_cons, List.cons_append]
      rcases pathRootL_cases l with hr | hr | hr <;> rw [hr] <;>
        simp only [pathRenderL, List.cons_ne_nil, and_false, if_false,
          List.nil_append, List.cons_append, List.append_nil, if_neg] <;>
        constructor
      · rw [hjoin]
        exact pathRootL_cons_ne qc _ hqc
      · show pathPartsL (joinWithChar '/' ((qc :: qt) :: qs)) = _
        unfold pathPartsL
        rw [hsplit, hfilter]
      · rw [hjoin]
        exact pathRootL_one_slash qc _ hqc
      · show pathPartsL ('/' :: joinWithChar '/' ((qc :: qt) :: qs)) = _
        unfold pathPartsL
        rw [splitOnChar_cons_sep, hsplit]
        simpa using hfilter
      · rw [hjoin]
        exact pathRootL_two_slash qc _ hqc
      · show pathPartsL ('/' :: '/' :: joinWithChar '/' ((qc :: qt) :: qs)) = _
        unfold pathPartsL
        rw [splitOnChar_cons_sep, splitOnChar_cons_sep, hsplit]
        simpa using hfilter

/-- Converting a character list to a string and back is the identity. -/
theorem toList_asString (l : List Char) : (l.asString).toList = l := rfl

/-- The output template as claim C7 words it: the custom name if one was
provided (a `None` or empty custom name falls back to the title
placeholder `%(title)s`), sanitized so that every filesystem-illegal
character becomes an underscore, joined as a path component under the
expanded output directory, and suffixed with the extension placeholder
`.%(ext)s` that the delegate library resolves at save time. -/
def spec_outtmpl (home out_dir : String) (custom_name : Option String) : String :=
  let chosen :=
    match custom_name with
    | some s => if s = "" then "%(title)s" else s
    | none => "%(title)s"
  pathJoin (pathStr (expanduser home out_dir)) (safe_title chosen ++ ".%(ext)s")

/-- Installing the format selector and post-processors never touches the
output template. -/
theorem build_format_opts_outtmpl (audio_only : Bool) (quality : String)
    (base : YdlOpts) :
    (build_format_opts audio_only quality base).outtmpl = base.outtmpl := by
  unfold build_format_opts
  split_ifs <;> rfl

/-- The template built by `download` coincides with the spec-side
formulation for every home directory, output directory and custom name. -/
theorem build_outtmpl_eq_spec (home out_dir : String)
    (custom_name : Option String) :
    build_outtmpl home out_dir custom_name =
      spec_outtmpl home out_dir custom_name := by
  rcases path_roundtrip ((expanduser home out_dir).toList) with ⟨hr, hp⟩
  cases custom_name <;>
    simp only [build_outtmpl, spec_outtmpl, pathJoin, pathStr, python_or_str,
      toList_asString, safe_title_stripS, hr, hp]

/-- Claim C7: for every home and output directory, optional custom name
and title, the output filename template handed to the delegate equals the
sanitized custom name if one was provided (else the title placeholder),
with every filesystem-illegal character replaced by an underscore, joined
under the output directory and suffixed with the extension placeholder
resolved by the delegate at save time. -/
theorem c7_output_template (home url : String) (audio_only : Bool)
    (quality out_dir : String) (custom_name : Option String) :
    (download home url audio_only quality out_dir custom_name).ydl_opts.outtmpl =
      spec_outtmpl home out_dir custom_name := by
  have h0 : (download home url audio_only quality out_dir custom_name).ydl_opts =
      build_format_opts audio_only quality
        { outtmpl := build_outtmpl home out_dir custom_name,
          ignoreerrors := false, quiet := false, no_warnings := true,
          format := none, postprocessors := none } := rfl
  rw [h0, build_format_opts_outtmpl]
  exact build_outtmpl_eq_spec home out_dir custom_name
